import Mathlib

/-!
Verification development for the WikiGraphRAG streaming extraction pipeline.

The Python sources `src/parse/wikipedia.py` and `src/parse/xml_loader.py` are
shallowly embedded below: Python strings become `List Char`, Python exceptions
become an explicit `Except` error monad, the lazily pulled external paragraph
stream becomes an explicit cursor (current record plus remaining list), and the
MongoDB bulk-write sink becomes a list of flushed batches.  Floating point
enters the source only through `np.sqrt(score1*score2) > 0.5`; since both
scores are exact ratios of set cardinalities, that comparison is embedded in
exact integer form and proved equivalent to the real square-root formulation.
-/

namespace WikiGraphRAG

/-- Python whitespace characters, as matched by the regex class `\s`. -/
def isPyWs (c : Char) : Bool :=
  c = ' ' || c = '\t' || c = '\n' || c = '\r' || c = '\x0b' || c = '\x0c'

/-- Characters matched by the regex class `[\s_]` used in `_get_page_location`. -/
def isSepChar (c : Char) : Bool := isPyWs c || c = '_'

/-- Embeds `re.sub("[\s_]+", "_", s)` from `_get_page_location` (wikipedia.py
lines 181/183): every maximal run of whitespace/underscore characters is
replaced by a single underscore.  The boolean flag records whether we are
currently inside such a run (the replacement for the run was already
emitted). -/
def subSepRuns : Bool → List Char → List Char
  | _, [] => []
  | inRun, c :: cs =>
    if isSepChar c then
      if inRun then subSepRuns true cs else '_' :: subSepRuns true cs
    else c :: subSepRuns false cs

/-- Embeds Python `str.strip()`: drop whitespace from both ends. -/
def pyStripWs (l : List Char) : List Char :=
  ((l.dropWhile fun c => isPyWs c).reverse.dropWhile fun c => isPyWs c).reverse

/-- Embeds `re.sub("[\s_]+", "_", s).strip()` as composed in
`_get_page_location`. -/
def pyNormSeps (l : List Char) : List Char := pyStripWs (subSepRuns false l)

/-- Embeds Python `s.split(sep)[0]`: the part of `s` before the first
occurrence of `sep` (all of `s` when `sep` does not occur). -/
def takeBefore (c : Char) (l : List Char) : List Char := l.takeWhile fun a => a ≠ c

/-- Embeds the local `capitalize` helper of `_get_page_location` (lines
173-176): strings of length at most one are uppercased entirely, otherwise
only the first character is uppercased. -/
def pyCapitalizeFirst (l : List Char) : List Char :=
  if l.length ≤ 1 then l.map Char.toUpper
  else
    match l with
    | [] => []
    | c :: cs => c.toUpper :: cs

/-- Canonical (title, namespace) pair produced by the resolver; the source
class `PageLocation` with fields `title` and `namespace`. -/
structure PageLocation where
  title : List Char
  ns : Option (List Char)
deriving DecidableEq

def wColonUpper : List Char := ['W', ':']

def wColonLower : List Char := ['w', ':']

def talkChars : List Char := ['T', 'a', 'l', 'k']

/-- Embeds `_get_page_location(namespace_set, title)` (wikipedia.py lines
172-198).  Note the source computes a `'|'`-truncated sanitized title (line
179-181) and then immediately overwrites it using the full raw title (line
183); both dead intermediate values are kept here as unused lets to mirror
the source. -/
def get_page_location (namespace_set : List (List Char)) (title : List Char) :
    PageLocation :=
  let _sanitized_line179 := takeBefore '|' title
  let _sanitized_line181 := pyNormSeps _sanitized_line179
  let sanitized_title := pyNormSeps title
  if wColonUpper.isPrefixOf title || wColonLower.isPrefixOf title then
    ⟨pyCapitalizeFirst (sanitized_title.drop 2), none⟩
  else
    let capitalized_title := pyCapitalizeFirst sanitized_title
    let detected_namespace := takeBefore ':' title
    if detected_namespace = talkChars then
      ⟨takeBefore '/' capitalized_title, some talkChars⟩
    else
      ⟨capitalized_title,
        if namespace_set.contains detected_namespace && detected_namespace != []
        then some detected_namespace else none⟩

/-- Embeds `_extract_references(content)` (wikipedia.py lines 115-139).  The
entire matching implementation in the source is commented out; the live body
is `matches = []` followed by `return matches`, so the function returns the
empty list for every input.  (The element type `(position, target)` follows
the commented-out construction and the tuple unpacking at its only call
site.) -/
def extract_references (_content : List Char) : List (Nat × List Char) := []

/-- Example body from the specification's reference-extraction test vector. -/
def c1ExampleBody : List Char :=
  "See <ref>[[Ignored]]</ref> and [[Real Target|shown text]] and [[Real#Section]]".toList

/-- Specification-mandated normalization, written independently of the regex
embedding: collapse each maximal whitespace/underscore run to one
underscore (a separator directly followed by another separator is dropped;
the last separator of a run becomes `'_'`). -/
def collapseSeps : List Char → List Char
  | [] => []
  | [c] => if isSepChar c then ['_'] else [c]
  | a :: b :: rest =>
    if isSepChar a && isSepChar b then collapseSeps (b :: rest)
    else (if isSepChar a then '_' else a) :: collapseSeps (b :: rest)

/-- Specification-style first-letter capitalization, written by direct case
analysis on the string. -/
def capitalizeSpec : List Char → List Char
  | [] => []
  | [c] => [c.toUpper]
  | c :: cs => c.toUpper :: cs

/-- Resolver behaviour as forced by the code (the amended C5 description):
only a `W:`/`w:` prefix is stripped; otherwise the namespace prefix stays in
the title; the whole raw title is separator-normalized (the `'|'` truncation
in the source is dead); a title whose pre-colon prefix is `Talk` is truncated
at the first `/` and assigned namespace `Talk` irrespective of the namespace
set; otherwise the namespace is the pre-colon prefix when it is a non-empty
member of the set. -/
def resolveLocationSpec (namespace_set : List (List Char)) (title : List Char) :
    PageLocation :=
  if wColonUpper.isPrefixOf title || wColonLower.isPrefixOf title then
    ⟨capitalizeSpec ((collapseSeps title).drop 2), none⟩
  else if takeBefore ':' title = talkChars then
    ⟨takeBefore '/' (capitalizeSpec (collapseSeps title)), some talkChars⟩
  else
    ⟨capitalizeSpec (collapseSeps title),
      if namespace_set.contains (takeBefore ':' title) && takeBefore ':' title != []
      then some (takeBefore ':' title) else none⟩

theorem collapseSeps_cons_sep {c : Char} (cs : List Char) (h : isSepChar c = true) :
    collapseSeps (c :: cs) = '_' :: collapseSeps (cs.dropWhile fun a => isSepChar a) := by
  induction cs generalizing c with
  | nil => simp [collapseSeps, h]
  | cons b r ih =>
    by_cases hb : isSepChar b
    · rw [collapseSeps]
      simp only [h, hb, Bool.and_self, if_true]
      rw [ih hb, List.dropWhile_cons_of_pos hb]
    · rw [collapseSeps]
      simp [h, hb, List.dropWhile_cons_of_neg (by simpa using hb)]

theorem subSepRuns_eq_collapseSeps (l : List Char) :
    subSepRuns true l = collapseSeps (l.dropWhile fun a => isSepChar a) ∧
      subSepRuns false l = collapseSeps l := by
  induction l with
  | nil => simp [subSepRuns, collapseSeps]
  | cons c cs ih =>
    by_cases h : isSepChar c
    · refine ⟨?_, ?_⟩
      · rw [subSepRuns, List.dropWhile_cons_of_pos h]
        simp only [h, if_true]
        exact ih.1
      · rw [subSepRuns, collapseSeps_cons_sep cs h]
        simp only [h, if_true]
        rw [ih.1]
        simp
    · refine ⟨?_, ?_⟩
      · rw [subSepRuns, List.dropWhile_cons_of_neg (by simpa using h)]
        cases cs with
        | nil => simp [collapseSeps, h, subSepRuns]
        | cons b r =>
          rw [collapseSeps]
          simp [h, ih.2]
      · rw [subSepRuns]
        cases cs with
        | nil => simp [collapseSeps, h, subSepRuns]
        | cons b r =>
          rw [collapseSeps]
          simp [h, ih.2]

theorem mem_subSepRuns_not_ws {c : Char} {b : Bool} {l : List Char}
    (h : c ∈ subSepRuns b l) : isPyWs c = false := by
  induction l generalizing b with
  | nil => simp [subSepRuns] at h
  | cons a t ih =>
    by_cases ha : isSepChar a
    · cases b with
      | true => exact ih (by simpa [subSepRuns, ha] using h)
      | false =>
        simp [subSepRuns, ha] at h
        rcases h with h | h
        · subst h; decide
        · exact ih h
    · simp [subSepRuns, ha] at h
      rcases h with h | h
      · subst h
        simp [isSepChar] at ha
        exact ha.1
      · exact ih h

theorem pyStripWs_of_no_ws {l : List Char} (h : ∀ c ∈ l, isPyWs c = false) :
    pyStripWs l = l := by
  have h1 : l.dropWhile (fun c => isPyWs c) = l := by
    cases l with
    | nil => rfl
    | cons a t => simp [List.dropWhile_cons, h a (by simp)]
  rw [pyStripWs, h1]
  have h2 : l.reverse.dropWhile (fun c => isPyWs c) = l.reverse := by
    cases hr : l.reverse with
    | nil => rfl
    | cons a t =>
      have : a ∈ l := by
        have : a ∈ l.reverse := by rw [hr]; simp
        simpa using this
      simp [List.dropWhile_cons, h a this]
  rw [h2, List.reverse_reverse]

theorem pyNormSeps_eq_collapseSeps (l : List Char) :
    pyNormSeps l = collapseSeps l := by
  rw [pyNormSeps, pyStripWs_of_no_ws, (subSepRuns_eq_collapseSeps l).2]
  exact fun c hc => mem_subSepRuns_not_ws hc

/-- Normal-form predicate: no whitespace character and no two adjacent
underscores anywhere in the string. -/
def noWsNoDoubleUnderscore : List Char → Bool
  | [] => true
  | [c] => !isPyWs c
  | a :: b :: rest =>
    !isPyWs a && !(a = '_' && b = '_') && noWsNoDoubleUnderscore (b :: rest)

theorem noWsNoDoubleUnderscore_head {b : Char} {r : List Char}
    (h : noWsNoDoubleUnderscore (b :: r) = true) : isPyWs b = false := by
  cases r with
  | nil => simpa [noWsNoDoubleUnderscore] using h
  | cons c s =>
    simp only [noWsNoDoubleUnderscore, Bool.and_eq_true, Bool.not_eq_true'] at h
    exact h.1.1

theorem collapseSeps_fixed {l : List Char}
    (h : noWsNoDoubleUnderscore l = true) : collapseSeps l = l := by
  induction l with
  | nil => rfl
  | cons a t ih =>
    cases t with
    | nil =>
      simp only [noWsNoDoubleUnderscore, Bool.not_eq_true'] at h
      by_cases ha : a = '_'
      · subst ha; simp [collapseSeps]
      · have hsep : isSepChar a = false := by simp [isSepChar, h, ha]
        simp [collapseSeps, hsep]
    | cons b r =>
      simp only [noWsNoDoubleUnderscore, Bool.and_eq_true, Bool.not_eq_true',
        Bool.not_eq_true] at h
      obtain ⟨⟨hwa, hpair⟩, htail⟩ := h
      have ihbr := ih htail
      by_cases ha : a = '_'
      · subst ha
        have hb : b ≠ '_' := by
          intro hb
          simp [hb] at hpair
        have hbw : isPyWs b = false := noWsNoDoubleUnderscore_head htail
        have hbsep : isSepChar b = false := by simp [isSepChar, hbw, hb]
        rw [collapseSeps]
        simp [hbsep, ihbr]
      · have hsep : isSepChar a = false := by simp [isSepChar, hwa, ha]
        rw [collapseSeps]
        simp [hsep, ihbr]

theorem pyCapitalizeFirst_eq_capitalizeSpec (l : List Char) :
    pyCapitalizeFirst l = capitalizeSpec l := by
  match l with
  | [] => rfl
  | [c] => rfl
  | a :: b :: cs => simp [pyCapitalizeFirst, capitalizeSpec]

theorem takeWhile_idem {α : Type} (p : α → Bool) (l : List α) :
    (l.takeWhile p).takeWhile p = l.takeWhile p := by
  induction l with
  | nil => rfl
  | cons a t ih =>
    by_cases h : p a
    · simp [List.takeWhile_cons, h, ih]
    · simp [List.takeWhile_cons, h]

theorem noWsNoDoubleUnderscore_takeWhile (p : Char → Bool) {l : List Char}
    (h : noWsNoDoubleUnderscore l = true) :
    noWsNoDoubleUnderscore (l.takeWhile p) = true := by
  induction l with
  | nil => simpa using h
  | cons a t ih =>
    by_cases hp : p a
    · rw [List.takeWhile_cons_of_pos hp]
      cases t with
      | nil => simpa [noWsNoDoubleUnderscore] using h
      | cons b r =>
        simp only [noWsNoDoubleUnderscore, Bool.and_eq_true] at h
        obtain ⟨⟨hwa, hpair⟩, htail⟩ := h
        by_cases hpb : p b
        · have := ih htail
          rw [List.takeWhile_cons_of_pos hpb] at this ⊢
          simp only [noWsNoDoubleUnderscore, Bool.and_eq_true]
          exact ⟨⟨hwa, hpair⟩, this⟩
        · rw [List.takeWhile_cons_of_neg hpb]
          simp only [noWsNoDoubleUnderscore]
          simpa [noWsNoDoubleUnderscore_head htail] using hwa
    · rw [List.takeWhile_cons_of_neg hp]
      rfl

/-- Branch characterization: with no `W:`/`w:` prefix and pre-colon prefix
`Talk`, `_get_page_location` truncates the capitalized normalized title at
the first `/` and assigns namespace `Talk` without consulting the namespace
set. -/
theorem get_page_location_talk (ns : List (List Char)) (t : List Char)
    (hW : (wColonUpper.isPrefixOf t || wColonLower.isPrefixOf t) = false)
    (htalk : takeBefore ':' t = talkChars) :
    get_page_location ns t =
      ⟨takeBefore '/' (pyCapitalizeFirst (pyNormSeps t)), some talkChars⟩ := by
  rw [get_page_location]
  simp [hW, htalk]

/-- Branch characterization: with no `W:`/`w:` prefix and pre-colon prefix
different from `Talk`, `_get_page_location` keeps the full capitalized
normalized title and resolves the namespace by set membership. -/
theorem get_page_location_other (ns : List (List Char)) (t : List Char)
    (hW : (wColonUpper.isPrefixOf t || wColonLower.isPrefixOf t) = false)
    (htalk : takeBefore ':' t ≠ talkChars) :
    get_page_location ns t =
      ⟨pyCapitalizeFirst (pyNormSeps t),
        if ns.contains (takeBefore ':' t) && takeBefore ':' t != []
        then some (takeBefore ':' t) else none⟩ := by
  rw [get_page_location]
  simp only [hW, Bool.false_eq_true, if_false, htalk, if_neg htalk]

/-- C5 counterexample: the resolver does not strip the namespace prefix.
With namespace set containing only `Talk` and raw title `Talk:Foo`, the
resolved title is the full `Talk:Foo` (namespace prefix retained), not the
stripped `Foo` the claim requires. -/
theorem c5_counterexample :
    (get_page_location ["Talk".toList] "Talk:Foo".toList).title = "Talk:Foo".toList ∧
      "Talk:Foo".toList ≠ "Foo".toList := by
  decide

/-- C5 amended: the resolver strips only a `W:`/`w:` prefix; any other
namespace prefix is retained in the title.  The whole raw title (the `'|'`
truncation computed first is dead and discarded) has whitespace/underscore
runs normalized to a single underscore; a title whose pre-colon prefix is
exactly `Talk` is truncated at the first `/` and given namespace `Talk`
regardless of the namespace set; otherwise the namespace is the pre-colon
prefix when it is a non-empty member of the namespace set; the first letter
is capitalized per the rule (length ≤ 1 uppercases the whole string, else
only the first character). -/
theorem c5_amended_resolver_behaviour (ns : List (List Char)) (t : List Char) :
    get_page_location ns t = resolveLocationSpec ns t := by
  rw [get_page_location, resolveLocationSpec]
  simp only [pyNormSeps_eq_collapseSeps, pyCapitalizeFirst_eq_capitalizeSpec]

/-- C8 counterexample: the resolver is not idempotent.  For the empty
namespace set and title `talk:A` (which contains no separators introduced by
normalization), the first resolution capitalizes the title to `Talk:A` with
no namespace, and resolving that title again detects the `Talk` namespace,
yielding a different `PageLocation`. -/
theorem c8_counterexample :
    get_page_location [] (get_page_location [] "talk:A".toList).title ≠
      get_page_location [] "talk:A".toList := by
  decide

theorem dropWhile_head_false {α : Type} {p : α → Bool} {l : List α} {c : α}
    {d : List α} (h : l.dropWhile p = c :: d) : p c = false := by
  induction l with
  | nil => simp at h
  | cons a t ih =>
    by_cases hp : p a
    · rw [List.dropWhile_cons_of_pos hp] at h
      exact ih h
    · rw [List.dropWhile_cons_of_neg hp] at h
      cases h
      simpa using hp

/-- C8 amended: resolution is idempotent for titles that do not carry a
`W:`/`w:` alias prefix and are already in normal form: they contain no
whitespace character, no two adjacent underscores (so separator
normalization fixes them), and their first letter is already capitalized.
For such titles, `resolve(ns, resolve(ns, t).title) = resolve(ns, t)`. -/
theorem c8_amended_idempotent (nsSet : List (List Char)) (t : List Char)
    (h1 : wColonUpper.isPrefixOf t = false)
    (h2 : wColonLower.isPrefixOf t = false)
    (h3 : noWsNoDoubleUnderscore t = true)
    (h4 : pyCapitalizeFirst t = t) :
    get_page_location nsSet (get_page_location nsSet t).title =
      get_page_location nsSet t := by
  have hW : (wColonUpper.isPrefixOf t || wColonLower.isPrefixOf t) = false := by
    simp [h1, h2]
  have hnorm : pyNormSeps t = t := by
    rw [pyNormSeps_eq_collapseSeps]
    exact collapseSeps_fixed h3
  by_cases htalk : takeBefore ':' t = talkChars
  · have hX := get_page_location_talk nsSet t hW htalk
    rw [hnorm, h4] at hX
    have htw : t.takeWhile (fun a => decide (a ≠ ':')) = talkChars := htalk
    have hsplit := List.takeWhile_append_dropWhile (fun a => decide (a ≠ ':')) t
    cases hd : t.dropWhile (fun a => decide (a ≠ ':')) with
    | nil =>
      have ht0 : t = talkChars := by
        rw [← hsplit, htw, hd, List.append_nil]
      have e1 : get_page_location nsSet talkChars = ⟨talkChars, some talkChars⟩ := by
        rw [get_page_location_talk nsSet talkChars (by decide) (by decide)]
        decide
      rw [ht0]
      simp [e1]
    | cons c d =>
      have hc : c = ':' := by
        have hh := dropWhile_head_false hd
        simpa using hh
      subst hc
      have ht0 : t = 'T' :: 'a' :: 'l' :: 'k' :: ':' :: d := by
        rw [← hsplit, htw, hd]
        rfl
      have hTval : takeBefore '/' t =
          'T' :: 'a' :: 'l' :: 'k' :: ':' :: d.takeWhile (fun a => decide (a ≠ '/')) := by
        rw [ht0]
        simp [takeBefore, List.takeWhile_cons]
      have hWT : (wColonUpper.isPrefixOf (takeBefore '/' t) ||
          wColonLower.isPrefixOf (takeBefore '/' t)) = false := by
        rw [hTval]
        simp [wColonUpper, wColonLower, List.isPrefixOf]
      have htalkT : takeBefore ':' (takeBefore '/' t) = talkChars := by
        rw [hTval]
        simp [takeBefore, List.takeWhile_cons, talkChars]
      have hnormT : pyNormSeps (takeBefore '/' t) = takeBefore '/' t := by
        rw [pyNormSeps_eq_collapseSeps]
        exact collapseSeps_fixed (noWsNoDoubleUnderscore_takeWhile _ h3)
      have hcapT : pyCapitalizeFirst (takeBefore '/' t) = takeBefore '/' t := by
        rw [hTval, pyCapitalizeFirst]
        rw [if_neg (by simp)]
        simp [show 'T'.toUpper = 'T' from by decide]
      have hslashT : takeBefore '/' (takeBefore '/' t) = takeBefore '/' t := by
        simp only [takeBefore]
        exact takeWhile_idem _ _
      rw [hX]
      show get_page_location nsSet (takeBefore '/' t) = _
      rw [get_page_location_talk nsSet _ hWT htalkT, hnormT, hcapT, hslashT]
  · have hX := get_page_location_other nsSet t hW htalk
    have htitle : (get_page_location nsSet t).title = t := by
      rw [hX]
      show pyCapitalizeFirst (pyNormSeps t) = t
      rw [hnorm, h4]
    rw [htitle]

/-- C8 amended witness at the concrete title `Talk:Foo/Bar` with namespace
set containing `Foo`. -/
theorem c8_amended_witness :
    get_page_location ["Foo".toList]
        (get_page_location ["Foo".toList] "Talk:Foo/Bar".toList).title =
      get_page_location ["Foo".toList] "Talk:Foo/Bar".toList :=
  c8_amended_idempotent ["Foo".toList] "Talk:Foo/Bar".toList
    (by decide) (by decide) (by decide) (by decide)

/-- C1: the reference extractor returns no references whatsoever — its
matching logic is commented out in the source — so on the specification's
example body it returns the empty list instead of the two references
`Real Target` and `Real` that the claim requires. -/
theorem c1_extract_references_empty :
    extract_references c1ExampleBody = [] ∧
      ∀ content : List Char, extract_references content = [] :=
  ⟨rfl, fun _ => rfl⟩

mutual
/-- Value stored under a child element name in a record tree: a single node
on first occurrence, converted to a sequence from the second occurrence on
(xml_loader.py lines 19-24). -/
inductive PyChild where
  | one : PyNode → PyChild
  | many : List PyNode → PyChild

/-- Record-tree node built by `LazyObjectHandler`: element name, attributes,
concatenated text content, and insertion-ordered child mapping (the Python
dict also stores `name`/`attrs`/`content` keys; they are separate fields
here). -/
inductive PyNode where
  | mk : String → List (String × String) → String → List (String × PyChild) → PyNode
end

def PyNode.name : PyNode → String
  | .mk n _ _ _ => n

def PyNode.attrs : PyNode → List (String × String)
  | .mk _ a _ _ => a

def PyNode.content : PyNode → String
  | .mk _ _ c _ => c

def PyNode.children : PyNode → List (String × PyChild)
  | .mk _ _ _ cs => cs

/-- Embeds the second-occurrence conversion of `LazyObjectHandler.startElement`
(xml_loader.py lines 19-22): a single node becomes a two-element sequence,
a sequence gets the new node appended. -/
def mergeChild : PyChild → PyNode → PyChild
  | .one x, t => .many [x, t]
  | .many xs, t => .many (xs ++ [t])

/-- Embeds attaching a completed node to its parent's child mapping
(xml_loader.py lines 19-24); the Python dict preserves insertion order, so
the mapping is an association list updated in place. -/
def attachChild : List (String × PyChild) → String → PyNode → List (String × PyChild)
  | [], name, node => [(name, .one node)]
  | (k, v) :: rest, name, node =>
    if k = name then (k, mergeChild v node) :: rest
    else (k, v) :: attachChild rest name node

/-- Embeds Python dict lookup `head[name]` on the child mapping. -/
def lookupChild (m : List (String × PyChild)) (name : String) : Option PyChild :=
  (m.find? fun kv => kv.1 == name).map fun kv => kv.2

/-- SAX events consumed by the handler: element open (with attributes),
element close, and character data. -/
inductive XmlEvent where
  | start : String → List (String × String) → XmlEvent
  | close : String → XmlEvent
  | chars : String → XmlEvent

/-- An open element on the breadcrumb stack: its name, attributes and the
children attached so far. -/
structure OpenFrame where
  name : String
  attrs : List (String × String)
  children : List (String × PyChild)

/-- State of `LazyObjectHandler`: the bottom breadcrumb dict (child mapping
of the skipped root), the stack of open frames above it, the
`skipped_first_node` flag, the in-progress text buffer (`None` before the
first element opens), and the record trees passed to the callback so far. -/
structure HState where
  rootChildren : List (String × PyChild)
  stack : List OpenFrame
  skippedFirst : Bool
  content : Option (List String)
  outputs : List PyChild

/-- Embeds one SAX event dispatch of `LazyObjectHandler` (xml_loader.py
lines 11-42).  The Python code attaches a node to its parent's mapping at
`startElement` and mutates it in place until `endElement`; this pure
embedding defers the attachment to `endElement`, which yields the same
final trees because siblings are opened and closed sequentially. -/
def hstep (s : HState) (e : XmlEvent) : HState :=
  match e with
  | .start n a =>
    if s.skippedFirst = false then { s with skippedFirst := true }
    else { s with stack := ⟨n, a, []⟩ :: s.stack, content := some [] }
  | .chars c =>
    if c = "" then s
    else
      match s.content with
      | none => s
      | some buf => { s with content := some (buf ++ [c]) }
  | .close n =>
    match s.stack with
    | [] => s
    | f :: rest =>
      let node := PyNode.mk f.name f.attrs (String.join (s.content.getD [])) f.children
      match rest with
      | [] =>
        { s with stack := [], rootChildren := [],
                 outputs := s.outputs ++
                   [(lookupChild (attachChild s.rootChildren f.name node) n).getD
                     (.one node)] }
      | g :: gs =>
        { s with stack := { g with children := attachChild g.children f.name node } :: gs }

/-- Runs the handler over a list of SAX events. -/
def runEvents (evs : List XmlEvent) (s : HState) : HState :=
  evs.foldl hstep s

/-- Fresh handler state (`LazyObjectHandler.__init__`). -/
def initHState : HState :=
  ⟨[], [], false, none, []⟩

mutual
/-- An item inside a well-formed element: either character data or a nested
element. -/
inductive XItem where
  | txt : String → XItem
  | sub : XTree → XItem

/-- A well-formed input element: name, attributes and its ordered contents. -/
inductive XTree where
  | node : String → List (String × String) → List XItem → XTree
end

def XTree.name : XTree → String
  | .node n _ _ => n

mutual
/-- SAX event stream of a well-formed element. -/
def serializeTree : XTree → List XmlEvent
  | .node n a items => XmlEvent.start n a :: serializeItems items ++ [XmlEvent.close n]

def serializeItems : List XItem → List XmlEvent
  | [] => []
  | .txt c :: rest => XmlEvent.chars c :: serializeItems rest
  | .sub t :: rest => serializeTree t ++ serializeItems rest
end

mutual
/-- Text buffer contents after processing the given items, starting from
`buf` (mirrors the shared `self.content` buffer: a nested element resets the
buffer, so the buffer after it is the nested element's own buffer). -/
def bufItems : List String → List XItem → List String
  | buf, [] => buf
  | buf, .txt c :: rest => bufItems (if c = "" then buf else buf ++ [c]) rest
  | _, .sub t :: rest => bufItems (bufTree t) rest

/-- Text buffer contents at the close of the given element. -/
def bufTree : XTree → List String
  | .node _ _ items => bufItems [] items
end

mutual
/-- Reference construction of the record tree the handler delivers for a
well-formed element. -/
def buildTree : XTree → PyNode
  | .node n a items =>
    PyNode.mk n a (String.join (bufItems [] items)) (buildChildren [] items)

/-- Child mapping accumulated over the items, starting from `m`. -/
def buildChildren : List (String × PyChild) → List XItem → List (String × PyChild)
  | m, [] => m
  | m, .txt _ :: rest => buildChildren m rest
  | m, .sub t :: rest => buildChildren (attachChild m t.name (buildTree t)) rest
end

theorem runEvents_cons (e : XmlEvent) (evs : List XmlEvent) (s : HState) :
    runEvents (e :: evs) s = runEvents evs (hstep s e) := rfl

theorem runEvents_singleton (e : XmlEvent) (s : HState) :
    runEvents [e] s = hstep s e := rfl

theorem runEvents_append (a b : List XmlEvent) (s : HState) :
    runEvents (a ++ b) s = runEvents b (runEvents a s) := by
  simp [runEvents, List.foldl_append]

mutual
theorem runEvents_serializeTree (t : XTree) (rc : List (String × PyChild))
    (f : OpenFrame) (fs : List OpenFrame) (ct : Option (List String))
    (out : List PyChild) :
    runEvents (serializeTree t) ⟨rc, f :: fs, true, ct, out⟩ =
      ⟨rc, { f with children := attachChild f.children t.name (buildTree t) } :: fs,
        true, some (bufTree t), out⟩ := by
  match t with
  | .node n a items =>
    rw [serializeTree]
    have hstart : hstep ⟨rc, f :: fs, true, ct, out⟩ (.start n a) =
        ⟨rc, ⟨n, a, []⟩ :: f :: fs, true, some [], out⟩ := by
      simp [hstep]
    rw [runEvents_append, runEvents_cons (XmlEvent.start n a) (serializeItems items), hstart]
    rw [runEvents_serializeItems items [] rc ⟨n, a, []⟩ (f :: fs) out]
    rw [runEvents_singleton]
    simp [hstep, buildTree, bufTree, XTree.name]

theorem runEvents_serializeItems (items : List XItem) (buf : List String)
    (rc : List (String × PyChild)) (f : OpenFrame) (fs : List OpenFrame)
    (out : List PyChild) :
    runEvents (serializeItems items) ⟨rc, f :: fs, true, some buf, out⟩ =
      ⟨rc, { f with children := buildChildren f.children items } :: fs, true,
        some (bufItems buf items), out⟩ := by
  match items with
  | [] =>
    rw [serializeItems, buildChildren, bufItems]
    show (⟨rc, f :: fs, true, some buf, out⟩ : HState) = _
    simp
  | .txt c :: rest =>
    rw [serializeItems, runEvents_cons]
    have hchars : hstep ⟨rc, f :: fs, true, some buf, out⟩ (.chars c) =
        ⟨rc, f :: fs, true, some (if c = "" then buf else buf ++ [c]), out⟩ := by
      by_cases hc : c = "" <;> simp [hstep, hc]
    rw [hchars, runEvents_serializeItems rest _ rc f fs out]
    rw [buildChildren, bufItems]
  | .sub t :: rest =>
    rw [serializeItems, runEvents_append]
    rw [runEvents_serializeTree t rc f fs (some buf) out]
    rw [runEvents_serializeItems rest (bufTree t)
      rc ({ f with children := attachChild f.children t.name (buildTree t) }) fs out]
    rw [buildChildren, bufItems]
end

theorem runEvents_serializeTree_root (t : XTree) (ct : Option (List String))
    (out : List PyChild) :
    runEvents (serializeTree t) ⟨[], [], true, ct, out⟩ =
      ⟨[], [], true, some (bufTree t), out ++ [PyChild.one (buildTree t)]⟩ := by
  match t with
  | .node n a items =>
    rw [serializeTree]
    rw [runEvents_append, runEvents_cons (XmlEvent.start n a) (serializeItems items)]
    have hstart : hstep ⟨[], [], true, ct, out⟩ (.start n a) =
        ⟨[], [⟨n, a, []⟩], true, some [], out⟩ := by
      simp [hstep]
    rw [hstart]
    rw [runEvents_serializeItems items [] [] ⟨n, a, []⟩ [] out]
    rw [runEvents_singleton]
    simp [hstep, buildTree, bufTree, XTree.name, attachChild, lookupChild]

theorem runEvents_records (recs : List XTree) (ct : Option (List String))
    (out : List PyChild) :
    ∃ ct', runEvents ((recs.map serializeTree).flatten) ⟨[], [], true, ct, out⟩ =
      ⟨[], [], true, ct', out ++ recs.map fun t => PyChild.one (buildTree t)⟩ := by
  induction recs generalizing ct out with
  | nil => exact ⟨ct, by simp [runEvents]⟩
  | cons r rs ih =>
    obtain ⟨ct', hct'⟩ := ih (some (bufTree r)) (out ++ [PyChild.one (buildTree r)])
    refine ⟨ct', ?_⟩
    rw [List.map_cons, List.flatten_cons, runEvents_append, runEvents_serializeTree_root,
      hct']
    simp

theorem lookupChild_attachChild_none {m : List (String × PyChild)} {name : String}
    (node : PyNode) (h : lookupChild m name = none) :
    lookupChild (attachChild m name node) name = some (.one node) := by
  induction m with
  | nil => simp [attachChild, lookupChild, List.find?]
  | cons kv rest ih =>
    obtain ⟨k, v⟩ := kv
    by_cases hk : k = name
    · exfalso
      rw [lookupChild, List.find?_cons_of_pos _ (by simpa using hk)] at h
      simp at h
    · rw [lookupChild, List.find?_cons_of_neg _ (by simpa using hk)] at h
      rw [attachChild, if_neg hk, lookupChild,
        List.find?_cons_of_neg _ (by simpa using hk)]
      exact ih h

theorem lookupChild_attachChild_one {m : List (String × PyChild)} {name : String}
    {x : PyNode} (node : PyNode) (h : lookupChild m name = some (.one x)) :
    lookupChild (attachChild m name node) name = some (.many [x, node]) := by
  induction m with
  | nil => simp [lookupChild, List.find?] at h
  | cons kv rest ih =>
    obtain ⟨k, v⟩ := kv
    by_cases hk : k = name
    · rw [lookupChild, List.find?_cons_of_pos _ (by simpa using hk)] at h
      simp at h
      rw [attachChild, if_pos hk, lookupChild,
        List.find?_cons_of_pos _ (by simpa using hk)]
      simp [h, mergeChild]
    · rw [lookupChild, List.find?_cons_of_neg _ (by simpa using hk)] at h
      rw [attachChild, if_neg hk, lookupChild,
        List.find?_cons_of_neg _ (by simpa using hk)]
      exact ih h

theorem lookupChild_attachChild_many {m : List (String × PyChild)} {name : String}
    {xs : List PyNode} (node : PyNode) (h : lookupChild m name = some (.many xs)) :
    lookupChild (attachChild m name node) name = some (.many (xs ++ [node])) := by
  induction m with
  | nil => simp [lookupChild, List.find?] at h
  | cons kv rest ih =>
    obtain ⟨k, v⟩ := kv
    by_cases hk : k = name
    · rw [lookupChild, List.find?_cons_of_pos _ (by simpa using hk)] at h
      simp at h
      rw [attachChild, if_pos hk, lookupChild,
        List.find?_cons_of_pos _ (by simpa using hk)]
      simp [h, mergeChild]
    · rw [lookupChild, List.find?_cons_of_neg _ (by simpa using hk)] at h
      rw [attachChild, if_neg hk, lookupChild,
        List.find?_cons_of_neg _ (by simpa using hk)]
      exact ih h

/-- C7: for every well-formed input stream (a root element wrapping a list
of well-formed records), the streaming tree builder (i) invokes the
callback exactly once per completed top-level record — the output list has
exactly the reference tree of each record, in order — and discards the
breadcrumb state between records (empty stack and empty root mapping at the
end), and (ii) the child mapping maps a name to a single node on its first
occurrence, converts it to a two-element sequence on the second occurrence,
and appends on later occurrences. -/
theorem c7_streaming_tree_builder (rootName : String)
    (rootAttrs : List (String × String)) (recs : List XTree) :
    ((runEvents (XmlEvent.start rootName rootAttrs :: (recs.map serializeTree).flatten)
          initHState).outputs = recs.map (fun t => PyChild.one (buildTree t)) ∧
      (runEvents (XmlEvent.start rootName rootAttrs :: (recs.map serializeTree).flatten)
          initHState).stack = [] ∧
      (runEvents (XmlEvent.start rootName rootAttrs :: (recs.map serializeTree).flatten)
          initHState).rootChildren = []) ∧
    (∀ (m : List (String × PyChild)) (name : String) (node : PyNode),
        lookupChild m name = none →
        lookupChild (attachChild m name node) name = some (.one node)) ∧
    (∀ (m : List (String × PyChild)) (name : String) (x node : PyNode),
        lookupChild m name = some (.one x) →
        lookupChild (attachChild m name node) name = some (.many [x, node])) ∧
    (∀ (m : List (String × PyChild)) (name : String) (xs : List PyNode)
        (node : PyNode),
        lookupChild m name = some (.many xs) →
        lookupChild (attachChild m name node) name = some (.many (xs ++ [node]))) := by
  refine ⟨?_, fun m name node h => lookupChild_attachChild_none node h,
    fun m name x node h => lookupChild_attachChild_one node h,
    fun m name xs node h => lookupChild_attachChild_many node h⟩
  have hstart : hstep initHState (.start rootName rootAttrs) = ⟨[], [], true, none, []⟩ := by
    simp [hstep, initHState]
  obtain ⟨ct', hrun⟩ := runEvents_records recs none []
  rw [runEvents_cons, hstart, hrun]
  simp

/-- C7 witness: a concrete one-record stream and a concrete first-occurrence
attachment. -/
theorem c7_witness :
    (runEvents (XmlEvent.start "mediawiki" [] ::
          ([XTree.node "page" [] [XItem.txt "hi"]].map serializeTree).flatten)
        initHState).outputs =
      [XTree.node "page" [] [XItem.txt "hi"]].map (fun t => PyChild.one (buildTree t)) ∧
    lookupChild (attachChild [] "id" (PyNode.mk "id" [] "7" [])) "id" =
      some (.one (PyNode.mk "id" [] "7" [])) := by
  have h := c7_streaming_tree_builder "mediawiki" [] [XTree.node "page" [] [XItem.txt "hi"]]
  exact ⟨h.1.1, h.2.1 [] "id" (PyNode.mk "id" [] "7" []) rfl⟩

/-- Python exceptions the embedded pipeline can raise. -/
inductive PyError where
  | stopIteration
  | attributeError
  | valueError
  | typeError
  | exception : String → PyError
deriving DecidableEq

/-- External paragraph record of the streamed `Upstash/wikipedia-2024-06-bge-m3`
dataset: record id, page title, paragraph text and embedding vector. -/
structure ExtPar where
  id : List Char
  title : List Char
  text : List Char
  embedding : List Int
deriving DecidableEq, Inhabited

def apostropheChar : Char := Char.ofNat 39

def quoteChar : Char := Char.ofNat 34

def backtickChar : Char := Char.ofNat 96

def braceOpenChar : Char := Char.ofNat 123

def braceCloseChar : Char := Char.ofNat 125

def refOpenTag : List Char := "<ref>".toList

def refCloseTag : List Char := "</ref>".toList

def bracket2Open : List Char := "[[".toList

def bracket2Close : List Char := "]]".toList

def brace2Open : List Char := [braceOpenChar, braceOpenChar]

def brace2Close : List Char := [braceCloseChar, braceCloseChar]

/-- Scans for the closing tag of the non-greedy `<ref>.*?</ref>` match
(wikipedia.py line 303): `.` does not match a newline, so the scan fails at a
newline or at end of input; on success returns the suffix after `</ref>`. -/
def afterRefClose : List Char → Option (List Char)
  | [] => none
  | c :: cs =>
    if refCloseTag.isPrefixOf (c :: cs) then some ((c :: cs).drop 6)
    else if c = '\n' then none
    else afterRefClose cs

/-- Embeds `re.sub("<ref>.*?</ref>", "", par)` (line 303): left-to-right scan
replacing each shortest same-line citation block by nothing.  Each step
consumes at least one input character, so fuel `length + 1` never runs
out. -/
def subRefGo : Nat → List Char → List Char
  | 0, l => l
  | _ + 1, [] => []
  | fuel + 1, c :: cs =>
    if refOpenTag.isPrefixOf (c :: cs) then
      match afterRefClose ((c :: cs).drop 5) with
      | some rest => subRefGo fuel rest
      | none => c :: subRefGo fuel cs
    else c :: subRefGo fuel cs

def subRefBlocks (l : List Char) : List Char := subRefGo (l.length + 1) l

/-- Attempts the bare alternative `([^]]+)\]\]` of the bracket-link regex at
`body`: a nonempty run of non-`]` characters followed by `]]`; returns the
captured group and the suffix after the match. -/
def matchDisplayTail (body : List Char) : Option (List Char × List Char) :=
  let g := body.takeWhile fun a => a ≠ ']'
  let tail := body.drop g.length
  if g ≠ [] ∧ bracket2Close.isPrefixOf tail then some (g, tail.drop 2) else none

/-- Attempts `(?:[^|\]]*\|)?([^]]+)\]\]` right after an opening `[[` (the
regex of line 305): the optional display-separator group participates only
when the first `|` comes before any `]`; if its tail then fails, the engine
backtracks to the bare alternative on the whole body. -/
def matchBracketLink (body : List Char) : Option (List Char × List Char) :=
  let run := body.takeWhile fun a => a ≠ '|' ∧ a ≠ ']'
  match body.drop run.length with
  | '|' :: rest =>
    match matchDisplayTail rest with
    | some r => some r
    | none => matchDisplayTail body
  | _ => matchDisplayTail body

/-- Embeds `re.sub(r'\[\[(?:[^|\]]*\|)?([^]]+)\]\]', r'\1', s)` (line 305):
each bracket link is replaced by its display text; scanning resumes after
the replaced match. -/
def subLinkGo : Nat → List Char → List Char
  | 0, l => l
  | _ + 1, [] => []
  | fuel + 1, c :: cs =>
    if bracket2Open.isPrefixOf (c :: cs) then
      match matchBracketLink ((c :: cs).drop 2) with
      | some (g, rest) => g ++ subLinkGo fuel rest
      | none => c :: subLinkGo fuel cs
    else c :: subLinkGo fuel cs

def subBracketLinks (l : List Char) : List Char := subLinkGo (l.length + 1) l

/-- Scans for the closing `}}` of the non-greedy `{{.*?}}` alternative of
line 305's decoration regex; `.` does not match a newline. -/
def afterBraces2 : List Char → Option (List Char)
  | [] => none
  | c :: cs =>
    if brace2Close.isPrefixOf (c :: cs) then some ((c :: cs).drop 2)
    else if c = '\n' then none
    else afterBraces2 cs

def decorChars : List Char := ['*', quoteChar, backtickChar, apostropheChar]

/-- Embeds the decoration-removal regex of line 305 (single characters
`* " `` '` or a shortest same-line template block `{{...}}`, alternatives
tried in that order at each position, all replaced by nothing). -/
def subDecorGo : Nat → List Char → List Char
  | 0, l => l
  | _ + 1, [] => []
  | fuel + 1, c :: cs =>
    if decorChars.contains c then subDecorGo fuel cs
    else if brace2Open.isPrefixOf (c :: cs) then
      match afterBraces2 ((c :: cs).drop 2) with
      | some rest => subDecorGo fuel rest
      | none => c :: subDecorGo fuel cs
    else c :: subDecorGo fuel cs

def removeDecor (l : List Char) : List Char := subDecorGo (l.length + 1) l

/-- Embeds `re.findall("\[\[([^\]]+)\]\]", s)` with the reference pattern of
line 298: every nonempty non-`]` group wrapped in double brackets, scanning
resuming after each match. -/
def findRefsGo : Nat → List Char → List (List Char)
  | 0, _ => []
  | _ + 1, [] => []
  | fuel + 1, c :: cs =>
    if bracket2Open.isPrefixOf (c :: cs) then
      let body := (c :: cs).drop 2
      let g := body.takeWhile fun a => a ≠ ']'
      if g ≠ [] ∧ bracket2Close.isPrefixOf (body.drop g.length) then
        g :: findRefsGo fuel ((body.drop g.length).drop 2)
      else findRefsGo fuel cs
    else findRefsGo fuel cs

def findRefs (l : List Char) : List (List Char) := findRefsGo (l.length + 1) l

/-- Embeds Python set construction `set(list)` as first-occurrence
deduplication; only membership and cardinalities of differences are consumed
downstream, for which this is an exact model. -/
def pySetGo : List (List Char) → List (List Char) → List (List Char)
  | _, [] => []
  | seen, x :: xs =>
    if seen.contains x then pySetGo seen xs else x :: pySetGo (x :: seen) xs

def pySetOf (l : List (List Char)) : List (List Char) := pySetGo [] l

/-- Word set of an external paragraph (line 295/326):
`set(text.replace("\'","").split(' '))`. -/
def refWordSet (text : List Char) : List (List Char) :=
  pySetOf (List.splitOn ' ' (text.filter fun a => a ≠ apostropheChar))

/-- Word set of a cleaned candidate paragraph (lines 303-306), starting from
the citation-stripped text `cmr`. -/
def cmrWordSet (cmr : List Char) : List (List Char) :=
  pySetOf (List.splitOn ' ' (removeDecor (subBracketLinks cmr)))

/-- Embeds `score1 = 1.0 - len(rset - cset)/len(rset)` (line 308) over exact
rationals. -/
def score1 (rset cset : List (List Char)) : ℚ :=
  1 - ((rset.filter fun x => !cset.contains x).length : ℚ) / (rset.length : ℚ)

/-- Embeds `score2 = 1.0 - len(cset - rset)/len(cset)` (line 310) over exact
rationals. -/
def score2 (rset cset : List (List Char)) : ℚ :=
  1 - ((cset.filter fun x => !rset.contains x).length : ℚ) / (cset.length : ℚ)

/-- Embeds the acceptance test `np.sqrt(score1*score2) > 0.5` (lines
311/321) in exact integer arithmetic: with `score1 = (r-d1)/r` and
`score2 = (c-d2)/c` both nonnegative, `sqrt(score1*score2) > 1/2` holds
exactly when `r*c < 4*(r-d1)*(c-d2)`; the claim C6 theorem proves this
equivalence against the real square-root formulation. -/
def acceptPar (rset cset : List (List Char)) : Bool :=
  let r : Int := rset.length
  let c : Int := cset.length
  let d1 : Int := (rset.filter fun x => !cset.contains x).length
  let d2 : Int := (cset.filter fun x => !rset.contains x).length
  r * c < 4 * ((r - d1) * (c - d2))

/-- Candidate text for page paragraph `i` (lines 301-302): when the current
external paragraph contains `nl > 0` newlines, the next `nl` page paragraphs
starting at `i` are joined with newlines; otherwise the paragraph itself. -/
def candidateAt (pars : List (List Char)) (i nl : Nat) (par : List Char) :
    List Char :=
  if 0 < nl then List.intercalate ['\n'] ((pars.drop i).take nl) else par

/-- References recorded for an accepted paragraph (line 322):
`x.split("|")[0].split("#")[0]` for each `[[...]]` group found in the
citation-stripped candidate. -/
def parRefs (cmr : List Char) : List (List Char) :=
  (findRefs cmr).map fun x => takeBefore '#' (takeBefore '|' x)

/-- Acceptance decision for external paragraph `b` against page paragraph
`i` (lines 301-311 and 321). -/
def acceptsAt (pars : List (List Char)) (group : List ExtPar) (b i : Nat)
    (par : List Char) : Bool :=
  let ext := group.getD b default
  let cand := candidateAt pars i (ext.text.count '\n') par
  acceptPar (refWordSet ext.text) (cmrWordSet (subRefBlocks cand))

/-- Entry recorded on acceptance (line 322): the external record id together
with the page references of the candidate. -/
def entryAt (pars : List (List Char)) (group : List ExtPar) (b i : Nat)
    (par : List Char) : List Char × List (List Char) :=
  let ext := group.getD b default
  let cand := candidateAt pars i (ext.text.count '\n') par
  (ext.id, parRefs (subRefBlocks cand))

/-- Embeds the alignment loop of wikipedia.py lines 294-327: a single forward
scan over the page paragraphs (`rem` is the remaining suffix, `i` its absolute
start index), advancing the external index `b` on each acceptance and
stopping early once all external paragraphs are matched.  The
`bge3_paragraph_refs` defaultdict is modelled as the association list of
`(record id, references)` entries in acceptance order. -/
def alignGo (pars : List (List Char)) (group : List ExtPar) :
    List (List Char) → Nat → Nat → List (List Char × List (List Char))
  | [], _, _ => []
  | par :: rem, i, b =>
    if acceptsAt pars group b i par then
      if group.length ≤ b + 1 then [entryAt pars group b i par]
      else entryAt pars group b i par :: alignGo pars group rem (i + 1) (b + 1)
    else alignGo pars group rem (i + 1) b

def alignRefs (pars : List (List Char)) (group : List ExtPar) :
    List (List Char × List (List Char)) :=
  alignGo pars group pars 0 0

/-- First accepted candidate at or after absolute index `i` for external
paragraph `b`: the specification's "first candidate in forward scan order
with score above the threshold". -/
def findAccept (pars : List (List Char)) (group : List ExtPar) (b : Nat) :
    List (List Char) → Nat → Option (Nat × (List Char × List (List Char)))
  | [], _ => none
  | par :: rem, i =>
    if acceptsAt pars group b i par then some (i, entryAt pars group b i par)
    else findAccept pars group b rem (i + 1)

/-- Specification formulation of the alignment loop: for each remaining
external paragraph in order, accept the first scoring candidate in forward
scan order and resume the scan directly after it. -/
def alignSpecGo (pars : List (List Char)) (group : List ExtPar) :
    List ExtPar → List (List Char) → Nat → Nat →
      List (List Char × List (List Char))
  | [], _, _, _ => []
  | _ :: gs, rem, i, b =>
    match findAccept pars group b rem i with
    | none => []
    | some (j, e) => e :: alignSpecGo pars group gs (rem.drop (j + 1 - i)) (j + 1) (b + 1)

theorem findAccept_le {pars : List (List Char)} {group : List ExtPar} {b : Nat}
    {rem : List (List Char)} {i j : Nat} {e : List Char × List (List Char)}
    (h : findAccept pars group b rem i = some (j, e)) : i ≤ j := by
  induction rem generalizing i with
  | nil => simp [findAccept] at h
  | cons par rest ih =>
    rw [findAccept] at h
    by_cases ha : acceptsAt pars group b i par
    · simp only [ha, if_true, Option.some.injEq, Prod.mk.injEq] at h
      omega
    · simp only [ha, if_false] at h
      have := ih h
      omega

theorem alignSpecGo_cons_reject (pars : List (List Char)) (group : List ExtPar)
    (x : ExtPar) (gs : List ExtPar) (par : List Char) (rest : List (List Char))
    (i b : Nat) (ha : acceptsAt pars group b i par = false) :
    alignSpecGo pars group (x :: gs) (par :: rest) i b =
      alignSpecGo pars group (x :: gs) rest (i + 1) b := by
  rw [alignSpecGo, alignSpecGo]
  rw [show findAccept pars group b (par :: rest) i =
      findAccept pars group b rest (i + 1) from by rw [findAccept]; simp [ha]]
  cases hf : findAccept pars group b rest (i + 1) with
  | none => rfl
  | some je =>
    obtain ⟨j, e⟩ := je
    have hij : i + 1 ≤ j := findAccept_le hf
    have hdrop : (par :: rest).drop (j + 1 - i) = rest.drop (j + 1 - (i + 1)) := by
      have h1 : j + 1 - i = (j - i) + 1 := by omega
      rw [h1, List.drop_succ_cons]
      congr 1
      omega
    dsimp only
    rw [hdrop]

theorem alignGo_eq_alignSpecGo (pars : List (List Char)) (group : List ExtPar) :
    ∀ (rem : List (List Char)) (i b : Nat), b < group.length →
      alignGo pars group rem i b = alignSpecGo pars group (group.drop b) rem i b := by
  intro rem
  induction rem with
  | nil =>
    intro i b hb
    obtain ⟨x, gs, hxg⟩ : ∃ x gs, group.drop b = x :: gs := by
      cases hgd : group.drop b with
      | nil =>
        rw [List.drop_eq_nil_iff] at hgd
        omega
      | cons x gs => exact ⟨x, gs, rfl⟩
    rw [alignGo, hxg, alignSpecGo, findAccept]
  | cons par rest ih =>
    intro i b hb
    obtain ⟨x, gs, hxg⟩ : ∃ x gs, group.drop b = x :: gs := by
      cases hgd : group.drop b with
      | nil =>
        rw [List.drop_eq_nil_iff] at hgd
        omega
      | cons x gs => exact ⟨x, gs, rfl⟩
    have hgs : group.drop (b + 1) = gs := by
      have h1 : group.drop (b + 1) = (group.drop b).drop 1 := by
        rw [List.drop_drop]
      rw [h1, hxg, List.drop_succ_cons, List.drop_zero]
    rw [alignGo]
    by_cases ha : acceptsAt pars group b i par
    · simp only [ha, if_true]
      rw [hxg, alignSpecGo]
      rw [show findAccept pars group b (par :: rest) i =
          some (i, entryAt pars group b i par) from by rw [findAccept]; simp [ha]]
      have hdrop1 : (par :: rest).drop (i + 1 - i) = rest := by
        have h1 : i + 1 - i = 1 := by omega
        rw [h1, List.drop_succ_cons, List.drop_zero]
      dsimp only
      rw [hdrop1]
      by_cases hb1 : group.length ≤ b + 1
      · simp only [hb1, if_true]
        have hgsnil : gs = [] := by
          rw [← hgs]
          exact List.drop_eq_nil_of_le hb1
        rw [hgsnil, alignSpecGo]
      · simp only [hb1, if_false]
        rw [ih (i + 1) (b + 1) (by omega), hgs]
    · have ha' : acceptsAt pars group b i par = false := by simpa using ha
      simp only [ha', Bool.false_eq_true, if_false]
      rw [ih (i + 1) b hb, hxg,
        alignSpecGo_cons_reject pars group x gs par rest i b ha']

/-- Connects the embedded loop to the specification formulation: alignment
pairs each external paragraph, in order, with the first accepted candidate
in forward scan order and resumes directly after it. -/
theorem alignRefs_eq_spec (pars : List (List Char)) (group : List ExtPar)
    (h : 0 < group.length) :
    alignRefs pars group = alignSpecGo pars group group pars 0 0 := by
  rw [alignRefs, alignGo_eq_alignSpecGo pars group pars 0 0 h, List.drop_zero]

theorem filter_length_partition {α : Type} (p : α → Bool) (l : List α) :
    (l.filter p).length + (l.filter fun a => !p a).length = l.length := by
  induction l with
  | nil => rfl
  | cons a t ih =>
    by_cases h : p a <;> simp [h, List.filter_cons] <;> omega

theorem score1_eq_inter (rset cset : List (List Char)) (h : rset ≠ []) :
    score1 rset cset =
      ((rset.filter fun x => cset.contains x).length : ℚ) / (rset.length : ℚ) := by
  have hn : (rset.length : ℚ) ≠ 0 :=
    Nat.cast_ne_zero.mpr fun h0 => h (List.length_eq_zero.mp h0)
  have hpart := filter_length_partition (fun x => cset.contains x) rset
  have hcast := congrArg (Nat.cast : Nat → ℚ) hpart
  push_cast at hcast
  rw [score1, eq_div_iff hn, sub_mul, one_mul, div_mul_cancel₀ _ hn]
  linarith

theorem score2_eq_score1_swap (rset cset : List (List Char)) :
    score2 rset cset = score1 cset rset := rfl

theorem score1_nonneg (rset cset : List (List Char)) (h : rset ≠ []) :
    0 ≤ score1 rset cset := by
  rw [score1_eq_inter rset cset h]
  positivity

theorem acceptPar_iff_quarter (rset cset : List (List Char)) (hr : rset ≠ [])
    (hc : cset ≠ []) :
    acceptPar rset cset = true ↔
      (1 : ℚ) / 4 < score1 rset cset * score2 rset cset := by
  have hr0 : 0 < rset.length := List.length_pos.mpr hr
  have hc0 : 0 < cset.length := List.length_pos.mpr hc
  have hrQ : (0 : ℚ) < (rset.length : ℚ) := by exact_mod_cast hr0
  have hcQ : (0 : ℚ) < (cset.length : ℚ) := by exact_mod_cast hc0
  have hprod : score1 rset cset * score2 rset cset =
      (((rset.length : ℚ) - ((rset.filter fun x => !cset.contains x).length : ℚ)) *
          ((cset.length : ℚ) - ((cset.filter fun x => !rset.contains x).length : ℚ))) /
        ((rset.length : ℚ) * (cset.length : ℚ)) := by
    rw [score1, score2]
    field_simp
  rw [hprod, lt_div_iff₀ (by positivity)]
  rw [acceptPar]
  simp only [decide_eq_true_eq]
  constructor
  · intro h
    have h' : (rset.length : ℚ) * (cset.length : ℚ) <
        4 * ((((rset.length : ℚ)) - ((rset.filter fun x => !cset.contains x).length : ℚ)) *
          (((cset.length : ℚ)) - ((cset.filter fun x => !rset.contains x).length : ℚ))) := by
      exact_mod_cast h
    linarith
  · intro h
    have h' : (rset.length : ℚ) * (cset.length : ℚ) <
        4 * ((((rset.length : ℚ)) - ((rset.filter fun x => !cset.contains x).length : ℚ)) *
          (((cset.length : ℚ)) - ((cset.filter fun x => !rset.contains x).length : ℚ))) := by
      linarith
    exact_mod_cast h'

theorem acceptPar_iff_sqrt (rset cset : List (List Char)) (hr : rset ≠ [])
    (hc : cset ≠ []) :
    acceptPar rset cset = true ↔
      (1 : ℝ) / 2 < Real.sqrt ((score1 rset cset * score2 rset cset : ℚ) : ℝ) := by
  rw [acceptPar_iff_quarter rset cset hr hc]
  rw [Real.lt_sqrt (by norm_num)]
  rw [show ((1 : ℝ) / 2) ^ 2 = (((1 : ℚ) / 4 : ℚ) : ℝ) from by norm_num, Rat.cast_lt]

/-- C6: during alignment, (i) `score1` is exactly the fraction of
external-paragraph tokens present in the candidate text and `score2` exactly
the fraction of candidate tokens present in the external paragraph, (ii) the
acceptance test is exactly `sqrt(score1*score2) > 1/2` over the reals, and
(iii) the alignment loop pairs each external paragraph, in stream order,
with the first candidate in forward scan order that passes the threshold
(candidates being merged over the following page paragraphs when the
external paragraph contains line breaks, via `candidateAt` inside
`acceptsAt`), then advances to the next external paragraph. -/
theorem c6_alignment_scoring :
    (∀ rset cset : List (List Char), rset ≠ [] → cset ≠ [] →
      score1 rset cset =
          ((rset.filter fun x => cset.contains x).length : ℚ) / (rset.length : ℚ) ∧
        score2 rset cset =
          ((cset.filter fun x => rset.contains x).length : ℚ) / (cset.length : ℚ) ∧
        (acceptPar rset cset = true ↔
          (1 : ℝ) / 2 < Real.sqrt ((score1 rset cset * score2 rset cset : ℚ) : ℝ))) ∧
    (∀ (pars : List (List Char)) (group : List ExtPar), 0 < group.length →
      alignRefs pars group = alignSpecGo pars group group pars 0 0) := by
  refine ⟨fun rset cset hr hc => ⟨score1_eq_inter rset cset hr, ?_,
    acceptPar_iff_sqrt rset cset hr hc⟩, fun pars group h => alignRefs_eq_spec pars group h⟩
  rw [score2_eq_score1_swap, score1_eq_inter cset rset hc]

/-- C6 witness: concrete token sets (identical singleton sets, scores 1) and
a concrete one-paragraph alignment. -/
theorem c6_witness :
    (score1 ["ab".toList] ["ab".toList] =
        (((["ab".toList].filter fun x => ["ab".toList].contains x).length : ℚ) /
          (([("ab".toList)] : List (List Char)).length : ℚ)) ∧
      score2 ["ab".toList] ["ab".toList] =
        (((["ab".toList].filter fun x => ["ab".toList].contains x).length : ℚ) /
          (([("ab".toList)] : List (List Char)).length : ℚ)) ∧
      (acceptPar ["ab".toList] ["ab".toList] = true ↔
        (1 : ℝ) / 2 < Real.sqrt
          ((score1 ["ab".toList] ["ab".toList] *
            score2 ["ab".toList] ["ab".toList] : ℚ) : ℝ))) ∧
    alignRefs ["hello world".toList] [⟨"A_0".toList, "A".toList, "hello world".toList, [1]⟩] =
      alignSpecGo ["hello world".toList]
        [⟨"A_0".toList, "A".toList, "hello world".toList, [1]⟩]
        [⟨"A_0".toList, "A".toList, "hello world".toList, [1]⟩]
        ["hello world".toList] 0 0 := by
  have h := c6_alignment_scoring
  exact ⟨h.1 ["ab".toList] ["ab".toList] (by decide) (by decide),
    h.2 ["hello world".toList] [⟨"A_0".toList, "A".toList, "hello world".toList, [1]⟩]
      (by decide)⟩

/-- Parsed timestamp produced by `datetime.fromisoformat`. -/
structure PyDateTime where
  year : Nat
  month : Nat
  day : Nat
  hour : Nat
  minute : Nat
  second : Nat
deriving DecidableEq

def twoDigits (a b : Char) : Nat := (a.toNat - 48) * 10 + (b.toNat - 48)

/-- Models Python `int(str)` on the shapes used by the pipeline: optional
surrounding whitespace, optional sign, then a nonempty digit run; anything
else raises `ValueError`, modelled as `none`. -/
def digitsToNat (l : List Char) : Option Nat :=
  if l = [] then none
  else if l.all fun c => c.isDigit then
    some (l.foldl (fun acc c => acc * 10 + (c.toNat - 48)) 0)
  else none

def pyInt (s : List Char) : Option Int :=
  match pyStripWs s with
  | '+' :: ds => (digitsToNat ds).map Int.ofNat
  | '-' :: ds => (digitsToNat ds).map fun n => -(n : Int)
  | ds => (digitsToNat ds).map Int.ofNat

/-- Models `datetime.fromisoformat` on the timestamp shape the dump uses
after the trailing zone marker is stripped: `YYYY-MM-DDTHH:MM:SS` with
digit and range checks; any other string raises `ValueError`, modelled as
`none`. -/
def pyFromIsoformat (s : List Char) : Option PyDateTime :=
  match s with
  | [y1, y2, y3, y4, '-', m1, m2, '-', d1, d2, 'T', h1, h2, ':', n1, n2, ':', s1, s2] =>
    if ([y1, y2, y3, y4, m1, m2, d1, d2, h1, h2, n1, n2, s1, s2].all fun c => c.isDigit) then
      let mo := twoDigits m1 m2
      let da := twoDigits d1 d2
      let ho := twoDigits h1 h2
      let mi := twoDigits n1 n2
      let se := twoDigits s1 s2
      if 1 ≤ mo ∧ mo ≤ 12 ∧ 1 ≤ da ∧ da ≤ 31 ∧ ho ≤ 23 ∧ mi ≤ 59 ∧ se ≤ 59 then
        some ⟨twoDigits y1 y2 * 100 + twoDigits y3 y4, mo, da, ho, mi, se⟩
      else none
    else none
  | _ => none

/-- Source class `RedirectPageTarget`.  Note the source assigns the whole
`PageLocation` object to `target.title` (wikipedia.py line 148), not its
title string; this is embedded faithfully. -/
structure RedirectTarget where
  title : PageLocation
  ns : Option (List Char)
deriving DecidableEq

/-- Typed page entity produced by the mapper: `RedirectPage` carries a
target and no body text (its constructor never initializes a `content`
attribute); `ContentPage` carries body text and references. -/
inductive PageModel where
  | redirect (id : Int) (title : List Char) (ns : Option (List Char))
      (lastEdit : PyDateTime) (target : RedirectTarget)
  | content (id : Int) (title : List Char) (ns : Option (List Char))
      (lastEdit : PyDateTime) (content : List Char)
      (references : List (PageLocation × Nat))
deriving DecidableEq

def PageModel.title : PageModel → List Char
  | .redirect _ t _ _ _ => t
  | .content _ t _ _ _ _ => t

/-- Projection of the record tree fields dereferenced by
`_map_dict_to_page_model`: `page["redirect"]["attrs"]["title"]` (when the
`redirect` key is present), `page["revision"]["text"]["content"]`,
`page["title"]["content"]`, `page["id"]["content"]` and
`page["revision"]["timestamp"]["content"]`. -/
structure RawPage where
  redirectTitle : Option (List Char)
  textContent : List Char
  titleContent : List Char
  idContent : List Char
  timestampContent : List Char
deriving DecidableEq

/-- Python f-string rendering of an optional namespace: `None` renders as
the string `None` (relevant to the reference filter on line 158). -/
def pyStrOfOptNs : Option (List Char) → List Char
  | some n => n
  | none => "None".toList

/-- Embeds `_map_dict_to_page_model` (wikipedia.py lines 142-169).  The
redirect/content branch of the source runs before the id/timestamp parses;
since that branch is total (location parsing and the — empty — reference
extraction cannot raise), hoisting the two fallible parses preserves
behaviour exactly: a bad id or timestamp raises `ValueError` and no model is
produced. -/
def map_dict_to_page_model (parseLoc : List Char → PageLocation) (p : RawPage) :
    Except PyError PageModel :=
  match pyInt p.idContent with
  | none => .error .valueError
  | some idv =>
    match pyFromIsoformat p.timestampContent.dropLast with
    | none => .error .valueError
    | some ts =>
      let loc := parseLoc p.titleContent
      match p.redirectTitle with
      | some rt =>
        let page_location := parseLoc rt
        .ok (.redirect idv loc.title loc.ns ts ⟨page_location, page_location.ns⟩)
      | none =>
        let refs := (extract_references p.textContent).filterMap fun pr =>
          if pr.2 = [] ∨ pr.2 = pyStrOfOptNs (parseLoc pr.2).ns ++ [':'] then none
          else some (parseLoc pr.2, pr.1)
        .ok (.content idv loc.title loc.ns ts p.textContent refs)

/-- Batch facts pushed to the MongoDB sink: `mongo_add_paragraph` and
`mongo_add_ref` update operations (wikipedia.py lines 240-267). -/
inductive Fact where
  | addParagraph (id title text : List Char) (embedding : List Int)
  | addRef (id refId refTitle : List Char)
deriving DecidableEq

/-- One top-level record of the export stream as consumed by
`build_dict_to_page_mapper`: the namespace declaration (its set of
namespace names) or a page record. -/
inductive Dto where
  | siteinfo (namespaces : List (List Char))
  | page (p : RawPage)
deriving DecidableEq

/-- State threaded through `iterate_pages_from_export_file`: the namespace
set captured by the closure after the `siteinfo` record (calling the mapper
before it is a `TypeError`), the external stream cursor
(`last_loaded_paragraph` plus the unconsumed remainder), the mutable
`batch_update` list, and the batches flushed to the sink so far. -/
structure PipeState where
  namespaceSet : Option (List (List Char))
  cur : ExtPar
  rest : List ExtPar
  batch : List Fact
  flushed : List (List Fact)
deriving DecidableEq

/-- Embeds the cursor-advancing `while` loop of lines 283-286: collect all
consecutive records sharing the current title; `next()` on an exhausted
stream raises `StopIteration`.  Returns the group, the new cursor record and
the remaining stream. -/
def collectGroup (t : List Char) : ExtPar → List ExtPar →
    Except PyError (List ExtPar × ExtPar × List ExtPar)
  | cur, rest =>
    if cur.title = t then
      match rest with
      | [] => .error .stopIteration
      | r :: rs =>
        match collectGroup t r rs with
        | .error e => .error e
        | .ok (g, c, tail) => .ok (cur :: g, c, tail)
    else .ok ([], cur, rest)

/-- Python `str(n)` for the nonnegative indices used in paragraph ids. -/
def natStr (n : Nat) : List Char := Nat.toDigits 10 n

/-- Embeds the `bge3_paragraph_refs` defaultdict lookup (line 353): missing
keys yield the empty list. -/
def lookupRefs (m : List (List Char × List (List Char))) (id : List Char) :
    List (List Char) :=
  match m.find? fun kv => kv.1 == id with
  | some kv => kv.2
  | none => []

/-- Embeds the innermost reference loop (lines 353-364): append one
`addRef` fact per cross-page reference, and after each such append flush the
whole buffer to the sink when it has reached the batch size.  This is the
only place the source checks the batch size. -/
def emitRefs (B : Nat) (parId : List Char) :
    List (List Char) → List Fact → List (List Fact) → List Fact × List (List Fact)
  | [], batch, flushed => (batch, flushed)
  | r :: rs, batch, flushed =>
    let batch' := batch ++ [Fact.addRef parId (r ++ "_0".toList) r]
    if B ≤ batch'.length then emitRefs B parId rs [] (flushed ++ [batch'])
    else emitRefs B parId rs batch' flushed

/-- Embeds the paragraph adjacency edges (lines 346-352): the first
paragraph links to every other paragraph of the group; every other
non-last paragraph links to its successor; no flush check occurs here. -/
def adjacencyFacts (group : List ExtPar) (ind : Nat) (par : ExtPar)
    (parId : List Char) : List Fact :=
  if ind = 0 then
    (List.range' 1 (group.length - 1)).map fun t =>
      Fact.addRef parId (par.title ++ '_' :: natStr t) par.title
  else if ind < group.length - 1 then
    [Fact.addRef parId (par.title ++ '_' :: natStr (ind + 1)) par.title]
  else []

/-- Embeds the per-group emission loop (lines 341-364) over the enumerated
group: paragraph fact, adjacency facts, then the reference loop with its
flush checks. -/
def emitGo (B : Nat) (group : List ExtPar)
    (refsMap : List (List Char × List (List Char))) :
    Nat → List ExtPar → List Fact → List (List Fact) → List Fact × List (List Fact)
  | _, [], batch, flushed => (batch, flushed)
  | ind, par :: rest, batch, flushed =>
    let parId := par.title ++ '_' :: natStr ind
    let batch1 := batch ++ [Fact.addParagraph parId par.title par.text par.embedding]
    let batch2 := batch1 ++ adjacencyFacts group ind par parId
    let st2 := emitRefs B parId (lookupRefs refsMap par.id) batch2 flushed
    emitGo B group refsMap (ind + 1) rest st2.1 st2.2

def emitGroup (B : Nat) (group : List ExtPar)
    (refsMap : List (List Char × List (List Char)))
    (batch : List Fact) (flushed : List (List Fact)) : List Fact × List (List Fact) :=
  emitGo B group refsMap 0 group batch flushed

def fewerMsg : String := "Fewer page paragraphs than BGE3 paragraphs!"

/-- Embeds the body split of lines 288-290: split on newlines, keep the
paragraphs longer than 10 characters, and fall back to the unfiltered split
when the filter removes everything. -/
def pageParagraphs (content : List Char) : List (List Char) :=
  let split0 := List.splitOn '\n' content
  let filtered := split0.filter fun pp => 10 < pp.length
  if filtered = [] then split0 else filtered

/-- Embeds the attribute access `page.content` (line 288): a `RedirectPage`
never initializes a `content` attribute, so the access raises
`AttributeError`. -/
def getContent : PageModel → Except PyError (List Char)
  | .redirect _ _ _ _ _ => .error .attributeError
  | .content _ _ _ _ c _ => .ok c

/-- Embeds the per-page part of `on_element` after mapping (wikipedia.py
lines 278-364): title match against the cursor, group collection, body
split with the length-10 filter and unfiltered fallback, the integrity
check `raise Exception(...)`, the alignment loop, the `max_par_ind` parse,
and the MongoDB emission (the client is taken as present, as in the
pipeline entry point). -/
def alignAndEmit (B : Nat) (s : PipeState) (pm : PageModel) :
    Except PyError PipeState :=
  if pm.title ≠ s.cur.title then .ok s
  else
    match collectGroup s.cur.title s.cur s.rest with
    | .error e => .error e
    | .ok (group, cur', rest') =>
      match getContent pm with
      | .error e => .error e
      | .ok content =>
        let pars := pageParagraphs content
        if pars.length < group.length then .error (.exception fewerMsg)
        else
          let refsMap := alignRefs pars group
          match pyInt ((List.splitOn '_' (group.getLastD default).id).getLastD []) with
          | none => .error .valueError
          | some _ =>
            let st := emitGroup B group refsMap s.batch s.flushed
            .ok { s with cur := cur', rest := rest', batch := st.1, flushed := st.2 }

/-- Embeds one `on_element` callback of `iterate_pages_from_export_file`
(lines 269-364): `siteinfo` sets the namespace set and returns; a
page record is mapped (`TypeError` if the namespace set is still `None`,
i.e. `parse_page_location_fn` is `None`) and then aligned and emitted. -/
def processDto (B : Nat) (s : PipeState) (d : Dto) : Except PyError PipeState :=
  match d with
  | .siteinfo nss => .ok { s with namespaceSet := some nss }
  | .page p =>
    match s.namespaceSet with
    | none => .error .typeError
    | some nsSet =>
      match map_dict_to_page_model (get_page_location nsSet) p with
      | .error e => .error e
      | .ok pm => alignAndEmit B s pm

/-- Embeds the whole run: `load_xml` feeds each record to `on_element` in
order; an uncaught exception aborts the run.  After the stream ends the
function simply returns — there is no drain of the remaining
`batch_update` buffer. -/
def runPipeline (B : Nat) : PipeState → List Dto → Except PyError PipeState
  | s, [] => .ok s
  | s, d :: ds =>
    match processDto B s d with
    | .error e => .error e
    | .ok s' => runPipeline B s' ds

/-- Run over already-mapped page models (the alignment part of the run,
used to state cursor-invariant claims about mapped pages). -/
def runAligned (B : Nat) : PipeState → List PageModel → Except PyError PipeState
  | s, [] => .ok s
  | s, pm :: pms =>
    match alignAndEmit B s pm with
    | .error e => .error e
    | .ok s' => runAligned B s' pms

def extA : ExtPar := ⟨"A_0".toList, "A".toList, "hello world".toList, [1]⟩

def extA1 : ExtPar := ⟨"A_1".toList, "A".toList, "hello again friend".toList, [2]⟩

def extZ : ExtPar := ⟨"Z_0".toList, "Z".toList, "zz".toList, [3]⟩

/-- Pipeline state after the siteinfo record, cursor at `extA`, one
trailing record of a different title. -/
def pipeStartA : PipeState := ⟨some [], extA, [extZ], [], []⟩

/-- Initial pipeline state (no namespace set yet), cursor at `extA` with a
two-record group ahead. -/
def pipeInit2 : PipeState := ⟨none, extA, [extA1, extZ], [], []⟩

/-- Initial pipeline state (no namespace set yet), cursor at `extA` with a
single-record group ahead. -/
def pipeInit1 : PipeState := ⟨none, extA, [extZ], [], []⟩

def tsA : List Char := "2024-01-01T00:00:00Z".toList

def pageA : RawPage := ⟨none, "hello world".toList, "A".toList, "1".toList, tsA⟩

def pageB : RawPage := ⟨none, "hello world".toList, "B".toList, "2".toList, tsA⟩

def badIdPage : RawPage := ⟨none, "hello world".toList, "C".toList, "abc".toList, tsA⟩

def ts0 : PyDateTime := ⟨2024, 1, 1, 0, 0, 0⟩

/-- C9: alignment is attempted for every mapped page, not only content
pages: for a `RedirectPage` whose title equals the external cursor's title
(and whose group collection succeeds, i.e. the external stream does not end
mid-group), processing reaches the `page.content` access, which a
`RedirectPage` does not carry, and raises `AttributeError` instead of
skipping alignment. -/
theorem c9_redirect_alignment_attribute_error (B : Nat) (s : PipeState)
    (idv : Int) (ns : Option (List Char)) (ts : PyDateTime)
    (tgt : RedirectTarget) (group : List ExtPar) (c' : ExtPar)
    (r' : List ExtPar)
    (hcol : collectGroup s.cur.title s.cur s.rest = .ok (group, c', r')) :
    alignAndEmit B s (.redirect idv s.cur.title ns ts tgt) =
      .error .attributeError := by
  rw [alignAndEmit, if_neg (by simp [PageModel.title]), hcol]
  rfl

/-- C9 witness at a concrete redirect page and stream state. -/
theorem c9_witness :
    alignAndEmit 7 pipeStartA
        (.redirect 5 pipeStartA.cur.title none ts0 ⟨⟨"B".toList, none⟩, none⟩) =
      .error .attributeError :=
  c9_redirect_alignment_attribute_error 7 pipeStartA 5 none ts0
    ⟨⟨"B".toList, none⟩, none⟩ [extA] extZ [] rfl

/-- C10: the external cursor advances only inside the branch whose page
title equals the cursor's current title; for a run in which no mapped page
has the cursor's title, the whole pipeline state — cursor, remaining
stream, batch buffer and flushed batches — is left untouched and no page
receives paragraph alignment. -/
theorem c10_cursor_invariant (B : Nat) (s : PipeState) (pms : List PageModel)
    (h : ∀ pm ∈ pms, pm.title ≠ s.cur.title) :
    runAligned B s pms = .ok s := by
  induction pms with
  | nil => rfl
  | cons pm rest ih =>
    rw [runAligned]
    have h1 : alignAndEmit B s pm = .ok s := by
      rw [alignAndEmit, if_pos (h pm (by simp))]
    rw [h1]
    exact ih fun q hq => h q (by simp [hq])

/-- C10 witness: two mapped pages whose titles differ from the cursor's
title leave the state untouched. -/
theorem c10_witness :
    runAligned 7 pipeStartA
        [PageModel.content 2 "B".toList none ts0 "hello world".toList [],
         PageModel.content 3 "C".toList none ts0 "hello world".toList []] =
      .ok pipeStartA :=
  c10_cursor_invariant 7 pipeStartA
    [PageModel.content 2 "B".toList none ts0 "hello world".toList [],
     PageModel.content 3 "C".toList none ts0 "hello world".toList []]
    (by decide)

/-- C3 counterexample: a content page whose title matches the cursor and
whose paragraph count (1) is smaller than the external group size (2) makes
the whole run abort with the integrity exception — the following page is
never processed — whereas the claim says processing continues with the next
page.  The second conjunct shows the same following page runs fine on its
own, so the abort is attributable to the failing page. -/
theorem c3_counterexample :
    runPipeline 100 pipeInit2 [Dto.siteinfo [], Dto.page pageA, Dto.page pageB] =
        .error (.exception fewerMsg) ∧
      runPipeline 100 pipeInit2 [Dto.siteinfo [], Dto.page pageB] =
        .ok ⟨some [], extA, [extA1, extZ], [], []⟩ := by
  constructor
  · rfl
  · rfl

/-- C3 amended: when a content page's title matches the external cursor and
its paragraph count is smaller than the external paragraph group size, the
pipeline raises the integrity exception and the exception propagates
uncaught: the entire run aborts with it, and the remaining pages are not
processed. -/
theorem c3_amended_integrity_aborts_run (B : Nat) (s : PipeState) (idv : Int)
    (ns : Option (List Char)) (ts : PyDateTime) (content : List Char)
    (refs : List (PageLocation × Nat)) (pms : List PageModel)
    (group : List ExtPar) (c' : ExtPar) (r' : List ExtPar)
    (hcol : collectGroup s.cur.title s.cur s.rest = .ok (group, c', r'))
    (hcount : (pageParagraphs content).length < group.length) :
    runAligned B s (PageModel.content idv s.cur.title ns ts content refs :: pms) =
      .error (.exception fewerMsg) := by
  rw [runAligned]
  have h1 : alignAndEmit B s (.content idv s.cur.title ns ts content refs) =
      .error (.exception fewerMsg) := by
    rw [alignAndEmit, if_neg (by simp [PageModel.title]), hcol]
    dsimp only [getContent]
    rw [if_pos hcount]
  rw [h1]

/-- C3 amended witness: a concrete failing page followed by another page;
the run aborts with the integrity exception. -/
theorem c3_amended_witness :
    runAligned 100 ⟨some [], extA, [extA1, extZ], [], []⟩
        [PageModel.content 1 "A".toList none ts0 "hello world".toList [],
         PageModel.content 2 "B".toList none ts0 "hello world".toList []] =
      .error (.exception fewerMsg) :=
  c3_amended_integrity_aborts_run 100 ⟨some [], extA, [extA1, extZ], [], []⟩
    1 none ts0 "hello world".toList []
    [PageModel.content 2 "B".toList none ts0 "hello world".toList []]
    [extA, extA1] extZ [] rfl (by decide)

/-- C4 counterexample: a record whose id field does not parse as an integer
makes the whole run abort with `ValueError` — it is not skipped, and the
following good record is never processed. -/
theorem c4_counterexample :
    runPipeline 100 pipeInit1 [Dto.siteinfo [], Dto.page badIdPage, Dto.page pageB] =
      .error .valueError := by
  rfl

/-- C4 amended: a record whose id or timestamp cannot be parsed raises
`ValueError` inside the mapper; the error propagates uncaught, so the
record is not skipped and the pipeline run aborts, leaving the remaining
records unprocessed.  The second and third conjuncts characterize the two
failure sources: an unparseable id, or a parseable id with a malformed
timestamp. -/
theorem c4_amended_mapping_error_aborts (B : Nat) (s : PipeState)
    (nsSet : List (List Char)) (p : RawPage) (e : PyError) (ds : List Dto)
    (hns : s.namespaceSet = some nsSet)
    (hmap : map_dict_to_page_model (get_page_location nsSet) p = .error e) :
    runPipeline B s (Dto.page p :: ds) = .error e ∧
      (∀ q : RawPage, pyInt q.idContent = none →
        map_dict_to_page_model (get_page_location nsSet) q = .error .valueError) ∧
      (∀ (q : RawPage) (i : Int), pyInt q.idContent = some i →
        pyFromIsoformat q.timestampContent.dropLast = none →
        map_dict_to_page_model (get_page_location nsSet) q = .error .valueError) := by
  refine ⟨?_, ?_, ?_⟩
  · rw [runPipeline]
    have h1 : processDto B s (Dto.page p) = .error e := by
      rw [processDto, hns]
      dsimp only
      rw [hmap]
    rw [h1]
  · intro q hq
    rw [map_dict_to_page_model, hq]
  · intro q i hq hts
    rw [map_dict_to_page_model, hq, hts]

/-- C4 amended witness: a concrete bad-id record aborts a concrete run. -/
theorem c4_amended_witness :
    runPipeline 100 ⟨some [], extA, [extZ], [], []⟩
        [Dto.page badIdPage, Dto.page pageB] = .error .valueError ∧
      (∀ q : RawPage, pyInt q.idContent = none →
        map_dict_to_page_model (get_page_location []) q = .error .valueError) ∧
      (∀ (q : RawPage) (i : Int), pyInt q.idContent = some i →
        pyFromIsoformat q.timestampContent.dropLast = none →
        map_dict_to_page_model (get_page_location []) q = .error .valueError) :=
  c4_amended_mapping_error_aborts 100 ⟨some [], extA, [extZ], [], []⟩ []
    badIdPage .valueError [Dto.page pageB] rfl rfl

theorem emitRefs_inv (B : Nat) (parId : List Char) (refs : List (List Char)) :
    ∀ (batch : List Fact) (flushed : List (List Fact)),
      ∃ fs, (emitRefs B parId refs batch flushed).2 = flushed ++ fs ∧
        (∀ bx ∈ fs, B ≤ bx.length) ∧
        (emitRefs B parId refs batch flushed).2.flatten ++
            (emitRefs B parId refs batch flushed).1 =
          flushed.flatten ++ batch ++
            (refs.map fun r => Fact.addRef parId (r ++ "_0".toList) r) := by
  induction refs with
  | nil =>
    intro batch flushed
    exact ⟨[], by simp [emitRefs], by simp, by simp [emitRefs]⟩
  | cons r rs ih =>
    intro batch flushed
    rw [emitRefs]
    by_cases hB : B ≤ (batch ++ [Fact.addRef parId (r ++ "_0".toList) r]).length
    · simp only [hB, if_true]
      obtain ⟨fs, h1, h2, h3⟩ :=
        ih [] (flushed ++ [batch ++ [Fact.addRef parId (r ++ "_0".toList) r]])
      refine ⟨(batch ++ [Fact.addRef parId (r ++ "_0".toList) r]) :: fs, ?_, ?_, ?_⟩
      · rw [h1]
        simp
      · intro bx hbx
        rcases List.mem_cons.mp hbx with hbx | hbx
        · subst hbx
          exact hB
        · exact h2 bx hbx
      · rw [h3]
        simp
    · simp only [hB, if_false]
      obtain ⟨fs, h1, h2, h3⟩ :=
        ih (batch ++ [Fact.addRef parId (r ++ "_0".toList) r]) flushed
      refine ⟨fs, h1, h2, ?_⟩
      rw [h3]
      simp

theorem emitGo_inv (B : Nat) (group : List ExtPar)
    (refsMap : List (List Char × List (List Char))) :
    ∀ (rest : List ExtPar) (ind : Nat) (batch : List Fact)
      (flushed : List (List Fact)),
      ∃ fs new, (emitGo B group refsMap ind rest batch flushed).2 = flushed ++ fs ∧
        (∀ bx ∈ fs, B ≤ bx.length) ∧
        (emitGo B group refsMap ind rest batch flushed).2.flatten ++
            (emitGo B group refsMap ind rest batch flushed).1 =
          flushed.flatten ++ batch ++ new := by
  intro rest
  induction rest with
  | nil =>
    intro ind batch flushed
    exact ⟨[], [], by simp [emitGo], by simp, by simp [emitGo]⟩
  | cons par tail ih =>
    intro ind batch flushed
    rw [emitGo]
    obtain ⟨fs1, h11, h12, h13⟩ := emitRefs_inv B (par.title ++ '_' :: natStr ind)
      (lookupRefs refsMap par.id)
      ((batch ++ [Fact.addParagraph (par.title ++ '_' :: natStr ind) par.title
          par.text par.embedding]) ++
        adjacencyFacts group ind par (par.title ++ '_' :: natStr ind))
      flushed
    obtain ⟨fs2, new2, h21, h22, h23⟩ := ih (ind + 1)
      (emitRefs B (par.title ++ '_' :: natStr ind) (lookupRefs refsMap par.id)
        ((batch ++ [Fact.addParagraph (par.title ++ '_' :: natStr ind) par.title
            par.text par.embedding]) ++
          adjacencyFacts group ind par (par.title ++ '_' :: natStr ind)) flushed).1
      (emitRefs B (par.title ++ '_' :: natStr ind) (lookupRefs refsMap par.id)
        ((batch ++ [Fact.addParagraph (par.title ++ '_' :: natStr ind) par.title
            par.text par.embedding]) ++
          adjacencyFacts group ind par (par.title ++ '_' :: natStr ind)) flushed).2
    refine ⟨fs1 ++ fs2, [Fact.addParagraph (par.title ++ '_' :: natStr ind) par.title
        par.text par.embedding] ++
      adjacencyFacts group ind par (par.title ++ '_' :: natStr ind) ++
      ((lookupRefs refsMap par.id).map fun r =>
        Fact.addRef (par.title ++ '_' :: natStr ind) (r ++ "_0".toList) r) ++ new2,
      ?_, ?_, ?_⟩
    · rw [h21, h11]
      simp
    · intro bx hbx
      rcases List.mem_append.mp hbx with hbx | hbx
      · exact h12 bx hbx
      · exact h22 bx hbx
    · rw [h23, h13]
      simp

theorem alignAndEmit_inv (B : Nat) (s : PipeState) (pm : PageModel)
    (s' : PipeState) (h : alignAndEmit B s pm = .ok s') :
    ∃ fs new, s'.flushed = s.flushed ++ fs ∧ (∀ bx ∈ fs, B ≤ bx.length) ∧
      s'.flushed.flatten ++ s'.batch = s.flushed.flatten ++ s.batch ++ new := by
  rw [alignAndEmit] at h
  by_cases ht : pm.title ≠ s.cur.title
  · rw [if_pos ht] at h
    cases h
    exact ⟨[], [], by simp, by simp, by simp⟩
  · rw [if_neg ht] at h
    cases hcol : collectGroup s.cur.title s.cur s.rest with
    | error e => rw [hcol] at h; cases h
    | ok gcr =>
      obtain ⟨group, c', r'⟩ := gcr
      rw [hcol] at h
      cases hcon : getContent pm with
      | error e => rw [hcon] at h; cases h
      | ok content =>
        rw [hcon] at h
        dsimp only at h
        by_cases hlen : (pageParagraphs content).length < group.length
        · rw [if_pos hlen] at h
          cases h
        · rw [if_neg hlen] at h
          cases hint : pyInt ((List.splitOn '_' (group.getLastD default).id).getLastD []) with
          | none => rw [hint] at h; cases h
          | some v =>
            rw [hint] at h
            dsimp only at h
            obtain ⟨fs, new, h1, h2, h3⟩ := emitGo_inv B group
              (alignRefs (pageParagraphs content) group) group 0 s.batch s.flushed
            cases h
            exact ⟨fs, new, h1, h2, h3⟩

theorem processDto_inv (B : Nat) (s : PipeState) (d : Dto) (s' : PipeState)
    (h : processDto B s d = .ok s') :
    ∃ fs new, s'.flushed = s.flushed ++ fs ∧ (∀ bx ∈ fs, B ≤ bx.length) ∧
      s'.flushed.flatten ++ s'.batch = s.flushed.flatten ++ s.batch ++ new := by
  cases d with
  | siteinfo nss =>
    rw [processDto] at h
    cases h
    exact ⟨[], [], by simp, by simp, by simp⟩
  | page p =>
    rw [processDto] at h
    cases hns : s.namespaceSet with
    | none => rw [hns] at h; cases h
    | some nsSet =>
      rw [hns] at h
      dsimp only at h
      cases hmap : map_dict_to_page_model (get_page_location nsSet) p with
      | error e => rw [hmap] at h; cases h
      | ok pm =>
        rw [hmap] at h
        exact alignAndEmit_inv B s pm s' h

/-- C2 amended: over any successful run, every batch handed to the sink was
flushed only once the buffer had reached at least the configured batch size
(the only flush checks sit after reference-fact appends and flush the whole
buffer), and the flushed batches followed by the final buffer are exactly
the previously flushed batches followed by the previous buffer and the
newly produced facts, in order — no fact is lost or duplicated at a flush
boundary.  There is no end-of-run drain: whatever remains in the buffer
when the input ends stays there and is never handed to the sink. -/
theorem c2_amended_batching (B : Nat) (s : PipeState) (ds : List Dto)
    (s' : PipeState) (h : runPipeline B s ds = .ok s') :
    ∃ fs new, s'.flushed = s.flushed ++ fs ∧ (∀ bx ∈ fs, B ≤ bx.length) ∧
      s'.flushed.flatten ++ s'.batch = s.flushed.flatten ++ s.batch ++ new := by
  induction ds generalizing s with
  | nil =>
    rw [runPipeline] at h
    cases h
    exact ⟨[], [], by simp, by simp, by simp⟩
  | cons d rest ih =>
    rw [runPipeline] at h
    cases hd : processDto B s d with
    | error e => rw [hd] at h; cases h
    | ok s1 =>
      rw [hd] at h
      obtain ⟨fs1, new1, h11, h12, h13⟩ := processDto_inv B s d s1 hd
      obtain ⟨fs2, new2, h21, h22, h23⟩ := ih s1 h
      refine ⟨fs1 ++ fs2, new1 ++ new2, ?_, ?_, ?_⟩
      · rw [h21, h11]
        simp
      · intro bx hbx
        rcases List.mem_append.mp hbx with hbx | hbx
        · exact h12 bx hbx
        · exact h22 bx hbx
      · rw [h23, h13]
        simp

/-- C2 counterexample: a run that pushes one batch fact with batch size 3
ends with the fact still sitting in the buffer and zero flushes: the sink
receives 0 items although the claim requires ceil(1/3) = 1 flush totalling
1 item (no drain occurs on normal termination). -/
theorem c2_counterexample :
    runPipeline 3 pipeInit1 [Dto.siteinfo [], Dto.page pageA] =
      .ok ⟨some [], extZ, [],
        [Fact.addParagraph "A_0".toList "A".toList "hello world".toList [1]],
        []⟩ := by
  rfl

/-- C2 amended witness: the invariants instantiated on the concrete run of
the counterexample state. -/
theorem c2_amended_witness :
    ∃ fs new,
      (⟨some [], extZ, [],
          [Fact.addParagraph "A_0".toList "A".toList "hello world".toList [1]],
          []⟩ : PipeState).flushed = pipeInit1.flushed ++ fs ∧
        (∀ bx ∈ fs, 3 ≤ bx.length) ∧
        (⟨some [], extZ, [],
            [Fact.addParagraph "A_0".toList "A".toList "hello world".toList [1]],
            []⟩ : PipeState).flushed.flatten ++
            (⟨some [], extZ, [],
              [Fact.addParagraph "A_0".toList "A".toList "hello world".toList [1]],
              []⟩ : PipeState).batch =
          pipeInit1.flushed.flatten ++ pipeInit1.batch ++ new :=
  c2_amended_batching 3 pipeInit1 [Dto.siteinfo [], Dto.page pageA] _ rfl

end WikiGraphRAG
